import Mathlib

/-!
Verification of the Hibiscus → beancount importer
(`src/importers/hibiscus.py`).

The development shallowly embeds the extraction-and-normalization pipeline:

* `FieldVal` models a raw row field that is either a Python `str` or a
  numeric (`java.lang.Double` / Python `float`) value.  A numeric value is
  represented by the exact decimal that Python's `str()` prints for it
  (the shortest round-tripping decimal, mantissa × 10⁻ᵉ); the underlying
  binary float is not modelled, matching the code's own contract of only
  ever reading floats through their decimal string.
* `PyDec` models `decimal.Decimal` values as sign-carrying mantissa and a
  decimal exponent, exactly as the `decimal` module stores them.
* Fallible Python operations (`Decimal(...)`, `float(...)`, `strptime`,
  raised `ValueError`s) are embedded as `Option`/`Except` values.
* `data_sorted` models `beancount.core.data.sorted`, a stable sort by the
  key `(entry.date, SORT_ORDER type rank, entry.meta lineno)` with
  `Balance ↦ -1` and `Transaction ↦ 0`.

Grammar fragments not exercised by this importer's data (exponent
notation, `inf`/`nan`, underscores in numeric literals, non-ASCII digits)
are outside the modelled subset of `float()`/`Decimal()` parsing.
-/

namespace Hibiscus

/-- Decimal value in the style of `decimal.Decimal`: the represented
number is `m / 10 ^ e`.  Trailing zeros of the source text are kept in
`e`, as the `decimal` module does. -/
structure PyDec where
  m : Int
  e : Nat
deriving DecidableEq, Repr

/-- Exact negation of a decimal (Python's unary `-` on `Decimal`). -/
def pdNeg (d : PyDec) : PyDec := ⟨-d.m, d.e⟩

/-- Truncation toward zero, Python's `int(...)` on a number. -/
def pdTrunc (d : PyDec) : Int := Int.tdiv d.m ((10 : Int) ^ d.e)

/-- Strict positivity of a decimal value (`x > 0` in Python). -/
def pdPos (d : PyDec) : Bool := 0 < d.m

/-- Rational value represented by a `PyDec` (used to state exact-value
properties). -/
def pdVal (d : PyDec) : Rat := (d.m : Rat) / ((10 : Rat) ^ d.e)

/-- A raw row field: either a Python `str`, or a numeric value
(modelled by the decimal its `str()` prints, see the file header). -/
inductive FieldVal where
  | fstr (s : String)
  | fnum (m : Int) (e : Nat)
deriving DecidableEq, Repr

/-- Numeric value of a digit list, most significant first. -/
def digitsVal (l : List Char) : Nat :=
  l.foldl (fun a c => a * 10 + (c.toNat - 48)) 0

/-- Python `str.isdigit` (restricted to ASCII digits): nonempty and all
characters are digits. -/
def pyIsDigit (s : String) : Bool :=
  !s.data.isEmpty && s.data.all Char.isDigit

/-- Python `int(...)` on a digits-only string. -/
def pyStrToInt (s : String) : Int := (digitsVal s.data : Int)

/-- Python `str.replace(",", ".")`: since the pattern is the single
character `,`, this maps every comma to a period. -/
def replaceCommaDot (s : String) : String :=
  String.mk (s.data.map (fun c => if c = ',' then '.' else c))

/-- Python substring test `"," in s`. -/
def containsComma (s : String) : Bool := s.data.contains ','

/-- Render the decimal `m × 10⁻ᵉ` the way Python's `str()` prints a
float: sign, integer part, a period, and at least one fractional digit. -/
def decRender (m : Int) (e : Nat) : String :=
  let digits := Nat.toDigits 10 m.natAbs
  let padded := List.replicate (e + 1 - digits.length) '0' ++ digits
  let ip := padded.take (padded.length - e)
  let fp := padded.drop (padded.length - e)
  String.mk ((if m < 0 then ['-'] else []) ++
    (if e = 0 then padded ++ ['.', '0'] else ip ++ '.' :: fp))

/-- Python `str(...)` applied to a row field. -/
def pyStr : FieldVal → String
  | .fstr s => s
  | .fnum m e => decRender m e

/-- Parse an unsigned decimal literal (digits with at most one period,
at least one digit overall), as `float()`/`Decimal()` accept. -/
def parseUnsignedDec : List Char → Option PyDec
  | l =>
    match l.span Char.isDigit with
    | (ints, []) =>
      if ints.isEmpty then none else some ⟨(digitsVal ints : Int), 0⟩
    | (ints, '.' :: frac) =>
      if frac.all Char.isDigit && !(ints.isEmpty && frac.isEmpty) then
        some ⟨(digitsVal (ints ++ frac) : Int), frac.length⟩
      else none
    | _ => none

/-- Python numeric-literal parsing (`decimal.Decimal(s)` and `float(s)`
on this data): optional sign, digits, at most one period.  `none` models
a raised `InvalidOperation`/`ValueError`. -/
def pyDecimal (s : String) : Option PyDec :=
  match s.data with
  | '-' :: rest => (parseUnsignedDec rest).map pdNeg
  | '+' :: rest => parseUnsignedDec rest
  | l => parseUnsignedDec l

/-- Python `float(...)` on a row field: strings are parsed, numeric
values pass through with their exact decimal value. -/
def pyFloat : FieldVal → Option PyDec
  | .fstr s => pyDecimal s
  | .fnum m e => some ⟨m, e⟩

/-- The source's `fix_regional`: on a string that is not purely digits
and contains a comma, replace commas by periods; everything else is
returned unchanged. -/
def fix_regional : FieldVal → FieldVal
  | .fstr s =>
    if !pyIsDigit s && containsComma s then .fstr (replaceCommaDot s)
    else .fstr s
  | .fnum m e => .fnum m e

/-- Calendar date, the result of `datetime.strptime(s, "%Y-%m-%d").date()`. -/
structure HDate where
  year : Nat
  month : Nat
  day : Nat
deriving DecidableEq, Repr

/-- Number of days of a month (with Gregorian leap years), as
`strptime`'s day-of-month validation uses. -/
def daysInMonth (year month : Nat) : Nat :=
  if month = 2 then
    if year % 4 = 0 && (year % 100 ≠ 0 || year % 400 = 0) then 29 else 28
  else if month = 4 || month = 6 || month = 9 || month = 11 then 30
  else 31

/-- `datetime.strptime(s, "%Y-%m-%d")` on a 10-character string:
four digits, `-`, two digits, `-`, two digits, with month and
day-of-month range checks.  `.error` models the raised `ValueError`. -/
def strptimeYmd (s : String) : Except String HDate :=
  match s.data with
  | [y1, y2, y3, y4, '-', m1, m2, '-', d1, d2] =>
    if [y1, y2, y3, y4, m1, m2, d1, d2].all Char.isDigit then
      let y := digitsVal [y1, y2, y3, y4]
      let m := digitsVal [m1, m2]
      let d := digitsVal [d1, d2]
      if 1 ≤ m && m ≤ 12 && 1 ≤ d && d ≤ daysInMonth y m then
        .ok ⟨y, m, d⟩
      else .error ("time data does not match format: " ++ s)
    else .error ("time data does not match format: " ++ s)
  | _ => .error ("time data does not match format: " ++ s)

/-- The source's `parse_hibiscus_time`: any string whose length is not
exactly 10 raises `ValueError("Malformed date: ...")`; otherwise the
string is handed to `strptime` with format `%Y-%m-%d`. -/
def parse_hibiscus_time (date_str : String) : Except String HDate :=
  if date_str.length ≠ 10 then .error ("Malformed date: " ++ date_str)
  else strptimeYmd date_str

/-- A metadata value: beancount metadata here holds ints and strings. -/
inductive MetaVal where
  | mint (i : Int)
  | mstr (s : String)
deriving DecidableEq, Repr

/-- Metadata dictionary lookup (`meta.get(key)` / `meta[key]`). -/
def metaGet (meta : List (String × MetaVal)) (key : String) : Option MetaVal :=
  match meta with
  | [] => none
  | (k, v) :: rest => if k = key then some v else metaGet rest key

/-- `beancount.core.data.new_metadata(filename, lineno)`. -/
def new_metadata (filename : String) (lineno : Int) : List (String × MetaVal) :=
  [("filename", .mstr filename), ("lineno", .mint lineno)]

/-- One leg of a transaction (`beancount.core.data.Posting` with the
cost/price/flag/meta slots always `None` in this importer).  The account
is an `Option` because the source passes `dict.get`'s result straight
through. -/
structure Posting where
  account : Option String
  units : PyDec
  currency : String
deriving DecidableEq, Repr

/-- A ledger entry: `data.Balance` or `data.Transaction` as this
importer populates them (tags/links always empty, flag always `*`,
payee always `None`). -/
inductive Entry where
  | balance (meta : List (String × MetaVal)) (date : HDate)
      (account : String) (units : PyDec) (currency : String)
  | txn (meta : List (String × MetaVal)) (date : HDate)
      (narration : String) (postings : List Posting)
deriving DecidableEq, Repr

/-- Metadata dictionary of an entry. -/
def Entry.meta : Entry → List (String × MetaVal)
  | .balance meta _ _ _ _ => meta
  | .txn meta _ _ _ => meta

/-- Date of an entry. -/
def Entry.date : Entry → HDate
  | .balance _ date _ _ _ => date
  | .txn _ date _ _ => date

/-- Postings of an entry (a `Balance` has none). -/
def Entry.postings : Entry → List Posting
  | .balance _ _ _ _ _ => []
  | .txn _ _ _ postings => postings

/-- Whether the entry is a balance assertion. -/
def Entry.isBalance : Entry → Bool
  | .balance _ _ _ _ _ => true
  | .txn _ _ _ _ => false

/-- A raw source row restricted to the fields the pipeline reads.  `id`
and `konto_id` are the integer-valued database columns (`row.get("id")`,
`int(row.get("konto_id"))`); `betrag` and `saldo` may arrive as locale
strings (XML-RPC) or as numeric values (H2 driver); the remaining
fields are strings. -/
structure Row where
  id : Int
  konto_id : Int
  betrag : FieldVal
  saldo : FieldVal
  zweck : String
  datum : String
  empfaenger_konto : String
deriving DecidableEq, Repr

/-- The source's `build_balance`: parse the date, then convert the RAW
`saldo` field (note: `fix_regional` is not applied here) to a decimal
via `Decimal(str(balance))`, and build `data.Balance` with metadata
`{"lineno": huid, "filename": "hibiscus"}`. -/
def build_balance (row : Row) (bean_account : String) : Except String Entry :=
  let huid := row.id
  match parse_hibiscus_time row.datum with
  | .error e => .error e
  | .ok date =>
    let balance := row.saldo
    match pyDecimal (pyStr balance) with
    | none => .error ("decimal.InvalidOperation: " ++ pyStr balance)
    | some balance_dec =>
      let meta := [("lineno", MetaVal.mint huid),
                   ("filename", MetaVal.mstr "hibiscus")]
      .ok (Entry.balance meta date bean_account balance_dec "EUR")

/-- The source's `build_transaction`: parse the date, normalize the
amount with `fix_regional`, convert it with `Decimal(str(amount))`,
post it on the mapped account, record the huid as string metadata, and
— when the counterparty reference is in the payee map — append a second
posting on that account carrying the exact negation of the amount. -/
def build_transaction (row : Row) (hibiscus_account_ids : Int → Option String)
    (hibiscus_payees : String → Option String) : Except String Entry :=
  let uid := row.id
  let payee_account_ref := row.empfaenger_konto
  let narration := row.zweck
  let bean_account := hibiscus_account_ids row.konto_id
  let currency := "EUR"
  match parse_hibiscus_time row.datum with
  | .error e => .error e
  | .ok date =>
    let amount_num := fix_regional row.betrag
    match pyDecimal (pyStr amount_num) with
    | none => .error ("decimal.InvalidOperation: " ++ pyStr amount_num)
    | some amount_dec =>
      let units := amount_dec
      let posting : Posting := ⟨bean_account, units, currency⟩
      let meta := new_metadata "<build_transaction>" 0 ++
        [("huid", MetaVal.mstr (toString uid))]
      let postings :=
        match hibiscus_payees payee_account_ref with
        | some payee_account =>
          [posting, ⟨some payee_account, pdNeg units, currency⟩]
        | none => [posting]
      .ok (Entry.txn meta date narration postings)

/-- `beancount.core.data.SORT_ORDER` rank of an entry type:
`Balance ↦ -1`, `Transaction ↦ 0`. -/
def sortOrderRank : Entry → Int
  | .balance _ _ _ _ _ => -1
  | .txn _ _ _ _ => 0

/-- The `lineno` metadata of an entry, as `entry_sortkey` reads it. -/
def metaLineno (e : Entry) : Int :=
  match metaGet e.meta "lineno" with
  | some (.mint i) => i
  | _ => 0

/-- `beancount.core.data.entry_sortkey`: the tuple
`(entry.date, SORT_ORDER rank, entry.meta lineno)` flattened into a
list of integers compared lexicographically. -/
def entry_sortkey (e : Entry) : List Int :=
  [(e.date.year : Int), (e.date.month : Int), (e.date.day : Int),
   sortOrderRank e, metaLineno e]

/-- Lexicographic non-strict order on integer lists (Python tuple `<=`
for the equal-length keys produced by `entry_sortkey`). -/
def listLexLe : List Int → List Int → Bool
  | [], _ => true
  | _ :: _, [] => false
  | a :: as, b :: bs =>
    if a < b then true else if a = b then listLexLe as bs else false

/-- Key comparison used by the sort of `beancount.core.data.sorted`. -/
def entryKeyLe (x y : Entry) : Bool := listLexLe (entry_sortkey x) (entry_sortkey y)

/-- Insert an entry into an already-sorted list, after every element
whose key is strictly smaller and before the first element whose key is
greater or equal — the placement a stable sort gives to an element that
preceded the list's elements in the input. -/
def insertStable (e : Entry) : List Entry → List Entry
  | [] => [e]
  | x :: xs =>
    if entryKeyLe x e && !entryKeyLe e x then x :: insertStable e xs
    else e :: x :: xs

/-- `beancount.core.data.sorted`: a stable sort of the entries by
`entry_sortkey`.  Python's `sorted` is stable, and a stable sort by a
given key is unique, so this structural insertion sort computes the
same list. -/
def data_sorted : List Entry → List Entry
  | [] => []
  | x :: xs => insertStable x (data_sorted xs)

/-- Outcome of the body of the `extract_transactions` loop for one row:
skipped as already processed, dropped because the account is unmapped,
or an entry. -/
inductive RowResult where
  | skippedAlready
  | unmapped
  | entry (e : Entry)
deriving DecidableEq, Repr

/-- Loop body of `extract_transactions` past the already-processed
check: normalize amount and balance with `fix_regional`, drop the row
if `konto_id` is unmapped, then classify — balance entry iff
`int(float(amount)) == 0 and float(balance) > 0` (with Python's
short-circuit: the balance is only converted when the truncated amount
is zero) — and build the corresponding entry. -/
def rowBody (hibiscus_account_ids : Int → Option String)
    (hibiscus_payees : String → Option String) (row : Row) :
    Except String RowResult :=
  let amount_num := fix_regional row.betrag
  let balance := fix_regional row.saldo
  match hibiscus_account_ids row.konto_id with
  | none => .ok .unmapped
  | some bean_account =>
    match pyFloat amount_num with
    | none => .error ("could not convert string to float: " ++ pyStr amount_num)
    | some a =>
      if pdTrunc a = 0 then
        match pyFloat balance with
        | none => .error ("could not convert string to float: " ++ pyStr balance)
        | some b =>
          if pdPos b then
            (build_balance row bean_account).map .entry
          else
            (build_transaction row hibiscus_account_ids hibiscus_payees).map .entry
      else
        (build_transaction row hibiscus_account_ids hibiscus_payees).map .entry

/-- One iteration of the `extract_transactions` loop: skip the row when
deduplication is on and `str(huid)` is among the already-processed ids,
otherwise run the loop body. -/
def rowResult (hibiscus_account_ids : Int → Option String)
    (hibiscus_payees : String → Option String)
    (already_processed_huids : List String) (ignore_already_processed : Bool)
    (row : Row) : Except String RowResult :=
  if ignore_already_processed = true ∧ toString row.id ∈ already_processed_huids
  then .ok .skippedAlready
  else rowBody hibiscus_account_ids hibiscus_payees row

/-- Mutable state of the `extract_transactions` loop: the built
entries, the skip counter, and the set of newly processed huids
(a Python `set`, modelled as a duplicate-free list in insertion
order). -/
structure ExtractState where
  new_entries : List Entry
  skipped : Nat
  newly_processed_huids : List Int
deriving DecidableEq, Repr

/-- Insertion into the newly-processed-huids set (`set.add`). -/
def setInsert (l : List Int) (a : Int) : List Int :=
  if a ∈ l then l else l ++ [a]

/-- The `for` loop of `extract_transactions`, folded over the rows; a
raised exception aborts the whole loop. -/
def extractLoop (hibiscus_account_ids : Int → Option String)
    (hibiscus_payees : String → Option String)
    (already_processed_huids : List String)
    (ignore_already_processed : Bool) :
    ExtractState → List Row → Except String ExtractState
  | st, [] => .ok st
  | st, row :: rows =>
    match rowResult hibiscus_account_ids hibiscus_payees
        already_processed_huids ignore_already_processed row with
    | .error e => .error e
    | .ok .skippedAlready =>
      extractLoop hibiscus_account_ids hibiscus_payees already_processed_huids
        ignore_already_processed { st with skipped := st.skipped + 1 } rows
    | .ok .unmapped =>
      extractLoop hibiscus_account_ids hibiscus_payees already_processed_huids
        ignore_already_processed st rows
    | .ok (.entry e) =>
      extractLoop hibiscus_account_ids hibiscus_payees already_processed_huids
        ignore_already_processed
        { st with
          new_entries := st.new_entries ++ [e],
          newly_processed_huids := setInsert st.newly_processed_huids row.id }
        rows

/-- The source's `merge_transactions`: a placeholder that returns its
input unchanged. -/
def merge_transactions (entries : List Entry) : List Entry := entries

/-- The source's `extract_transactions`: run the loop over all rows,
then return `data.sorted(new_entries)` together with the set of newly
processed huids (which the caller appends to the store when
deduplication is on).  The `merge_transactions` pass is computed but —
as in the source — its result is not the returned list. -/
def extract_transactions (rows : List Row)
    (hibiscus_account_ids : Int → Option String)
    (already_processed_huids : List String)
    (ignore_already_processed : Bool)
    (hibiscus_payees : String → Option String) :
    Except String (List Entry × List Int) :=
  match extractLoop hibiscus_account_ids hibiscus_payees
      already_processed_huids ignore_already_processed ⟨[], 0, []⟩ rows with
  | .error e => .error e
  | .ok st =>
    let _reconciled := merge_transactions st.new_entries
    .ok (data_sorted st.new_entries, st.newly_processed_huids)

/-- The source's `write_processed_huids`: append one line `str(huid)`
per newly processed id to the store (the Python `set` iteration order
is modelled as insertion order; all claims about the store are
set-level). -/
def write_processed_huids (store : List String)
    (newly_processed_huids : List Int) : List String :=
  store ++ newly_processed_huids.map toString

/-- One pipeline run: the store content is the already-processed set;
on success, when deduplication is on, the newly processed huids are
appended to the store (`extract_transactions` calls
`write_processed_huids` only when `ignore_already_processed` is
true). -/
def run_once (rows : List Row) (hibiscus_account_ids : Int → Option String)
    (hibiscus_payees : String → Option String) (store : List String)
    (ignore_already_processed : Bool) :
    Except String (List Entry × List String) :=
  match extract_transactions rows hibiscus_account_ids store
      ignore_already_processed hibiscus_payees with
  | .error e => .error e
  | .ok (entries, newly) =>
    .ok (entries,
      if ignore_already_processed then write_processed_huids store newly
      else store)

/-- Whether a CSV record is a comment line (`key.startswith("#")`). -/
def isCommentKey (key : String) : Bool :=
  match key.data with
  | '#' :: _ => true
  | _ => false

/-- Loop of the source's `get_accounts` over the CSV records
`(key, value, payee)` that follow the skipped header line: comment
lines are ignored; a key that is not digits-only raises
`ValueError("Malformed Hibiscus account id: ...")`; otherwise
`accounts_map[int(key)] = value`, and when `payee` is non-empty,
`payee_map[payee] = value`.  The dictionaries are modelled as
functions, assignment as pointwise update. -/
def get_accounts_loop : (Int → Option String) → (String → Option String) →
    List (String × String × String) →
    Except String ((Int → Option String) × (String → Option String))
  | accounts_map, payee_map, [] => .ok (accounts_map, payee_map)
  | accounts_map, payee_map, (key, value, payee) :: rest =>
    if isCommentKey key then get_accounts_loop accounts_map payee_map rest
    else if !pyIsDigit key then
      .error ("Malformed Hibiscus account id: " ++ key)
    else
      get_accounts_loop
        (fun k => if k = pyStrToInt key then some value else accounts_map k)
        (if payee ≠ "" then
          (fun r => if r = payee then some value else payee_map r)
        else payee_map)
        rest

/-- The source's `get_accounts` on the parsed CSV records after the
header line. -/
def get_accounts (records : List (String × String × String)) :
    Except String ((Int → Option String) × (String → Option String)) :=
  get_accounts_loop (fun _ => none) (fun _ => none) records

/-- Example account map: Hibiscus account 7 ↦ `Assets:Bank:Checking`. -/
def exAccounts : Int → Option String :=
  fun k => if k = 7 then some "Assets:Bank:Checking" else none

/-- Example payee map: counterparty reference `PAYEE7` is an internal
account. -/
def exPayees : String → Option String :=
  fun r => if r = "PAYEE7" then some "Assets:Bank:Savings" else none

/-- Example empty payee map. -/
def exPayeesNone : String → Option String := fun _ => none

/-- Example transaction row (the spec's end-to-end example): amount
`-50,00`, balance `150,00`, external counterparty. -/
def exRowTxn : Row := ⟨100, 7, .fstr "-50,00", .fstr "150,00", "Coffee", "2024-03-01", "X"⟩

/-- Example internal-transfer row: counterparty reference `PAYEE7`. -/
def exRowTransfer : Row := ⟨101, 7, .fstr "-50,00", .fstr "150,00", "move", "2024-03-01", "PAYEE7"⟩

/-- Example balance-assertion row with a period-formatted balance. -/
def exRowBal : Row := ⟨2, 7, .fstr "0", .fstr "5.00", "bal", "2024-03-01", "X"⟩

/-- Example balance-classified row whose balance arrives as a
comma-formatted locale string. -/
def exRowCommaBal : Row := ⟨10, 7, .fstr "0,00", .fstr "150,00", "x", "2024-03-01", "X"⟩

/-- Example row with a malformed (9-character) date. -/
def exRowBadDate : Row := ⟨11, 7, .fstr "-50,00", .fstr "150,00", "x", "2024-3-1", "X"⟩

/-- Example row whose account identifier 9 is not in the account map. -/
def exRowUnmapped : Row := ⟨55, 9, .fstr "1,00", .fstr "2,00", "u", "2024-03-02", "X"⟩

/-- Example row whose id 50 is already in the processed-id store. -/
def exRowDup : Row := ⟨50, 7, .fstr "1,00", .fstr "2,00", "d", "2024-03-02", "X"⟩

/-- The date components of an entry sort key (year, month, day). -/
def hdateKey (d : HDate) : List Int :=
  [(d.year : Int), (d.month : Int), (d.day : Int)]



/-- Negating a decimal representation negates its exact value. -/
theorem pdVal_pdNeg (d : PyDec) : pdVal (pdNeg d) = -pdVal d := by
  simp [pdVal, pdNeg, neg_div]

/-- Inversion for `build_transaction`: a successful build means the
date parsed, the normalized amount converted, and the entry is the
transaction with the huid metadata and one or two postings according to
the payee lookup. -/
theorem build_transaction_ok (row : Row) (a : Int → Option String)
    (p : String → Option String) (e : Entry)
    (h : build_transaction row a p = .ok e) :
    ∃ date amt, parse_hibiscus_time row.datum = .ok date ∧
      pyDecimal (pyStr (fix_regional row.betrag)) = some amt ∧
      e = Entry.txn
        [("filename", .mstr "<build_transaction>"), ("lineno", .mint 0),
         ("huid", .mstr (toString row.id))] date row.zweck
        (match p row.empfaenger_konto with
         | some pa => [⟨a row.konto_id, amt, "EUR"⟩, ⟨some pa, pdNeg amt, "EUR"⟩]
         | none => [⟨a row.konto_id, amt, "EUR"⟩]) := by
  cases hd : parse_hibiscus_time row.datum with
  | error msg => simp [build_transaction, hd] at h
  | ok date =>
    cases hdec : pyDecimal (pyStr (fix_regional row.betrag)) with
    | none => simp [build_transaction, hd, hdec] at h
    | some amt =>
      refine ⟨date, amt, rfl, rfl, ?_⟩
      cases hp : p row.empfaenger_konto with
      | none =>
        simp [build_transaction, hd, hdec, hp, new_metadata] at h
        simp [← h]
      | some pa =>
        simp [build_transaction, hd, hdec, hp, new_metadata] at h
        simp [← h]

/-- Inversion for `build_balance`: a successful build means the date
parsed, the RAW balance field converted, and the entry is the balance
assertion with the huid stored under `lineno`. -/
theorem build_balance_ok (row : Row) (acc : String) (e : Entry)
    (h : build_balance row acc = .ok e) :
    ∃ date bal, parse_hibiscus_time row.datum = .ok date ∧
      pyDecimal (pyStr row.saldo) = some bal ∧
      e = Entry.balance
        [("lineno", .mint row.id), ("filename", .mstr "hibiscus")]
        date acc bal "EUR" := by
  cases hd : parse_hibiscus_time row.datum with
  | error msg => simp [build_balance, hd] at h
  | ok date =>
    cases hdec : pyDecimal (pyStr row.saldo) with
    | none => simp [build_balance, hd, hdec] at h
    | some bal =>
      simp [build_balance, hd, hdec] at h
      exact ⟨date, bal, rfl, rfl, h.symm⟩

/-- C2 counterexample: normalizing the locale string `"1.234,56"`
yields `"1.234.56"` (only commas are replaced, the thousands separator
stays), and parsing that as a decimal FAILS — it does not yield
`1234.56`. -/
theorem claim_C2_counterexample :
    fix_regional (.fstr "1.234,56") = .fstr "1.234.56" ∧
    pyDecimal (pyStr (fix_regional (.fstr "1.234,56"))) = none :=
  ⟨rfl, rfl⟩

/-- C2 (amended): normalizing `"1.234,56"` yields `"1.234.56"`, whose
decimal parse fails (thousands separators are not handled); normalizing
the separator-free `"1234,56"` then parsing yields exactly `1234.56`;
normalizing the plain numeric value `42.0` returns it unchanged, and
its string-round-trip decimal conversion yields exactly `42.0`. -/
theorem claim_C2_amended :
    pyDecimal (pyStr (fix_regional (.fstr "1.234,56"))) = none ∧
    pyDecimal (pyStr (fix_regional (.fstr "1234,56"))) = some ⟨123456, 2⟩ ∧
    pdVal ⟨123456, 2⟩ = 1234.56 ∧
    fix_regional (.fnum 420 1) = .fnum 420 1 ∧
    pyDecimal (pyStr (fix_regional (.fnum 420 1))) = some ⟨420, 1⟩ ∧
    pdVal ⟨420, 1⟩ = 42.0 :=
  ⟨rfl, rfl, by norm_num [pdVal], rfl, rfl, by norm_num [pdVal]⟩

/-- C3: a row that classifies as a balance assertion (truncated amount
zero, positive balance) but whose `saldo` arrives as a comma-formatted
locale string makes the pipeline raise `decimal.InvalidOperation`
instead of emitting the assertion: `build_balance` converts the RAW
balance, without the `fix_regional` normalization that the
classification step and `build_transaction` apply. -/
theorem claim_C3_code_eval :
    fix_regional exRowCommaBal.saldo = .fstr "150.00" ∧
    pyFloat (fix_regional exRowCommaBal.betrag) = some ⟨0, 2⟩ ∧
    pdTrunc ⟨0, 2⟩ = 0 ∧
    pyFloat (fix_regional exRowCommaBal.saldo) = some ⟨15000, 2⟩ ∧
    pdPos ⟨15000, 2⟩ = true ∧
    pyDecimal (pyStr exRowCommaBal.saldo) = none ∧
    extract_transactions [exRowCommaBal] exAccounts [] false exPayeesNone
      = .error "decimal.InvalidOperation: 150,00" :=
  ⟨rfl, rfl, rfl, rfl, rfl, rfl, rfl⟩

/-- C4: a successfully built transaction has exactly two postings when
the counterparty reference is in the payee map — the second on the
mapped payee account, carrying the exact arithmetic negation of the
first posting's amount — and exactly one posting when it is not. -/
theorem claim_C4 (row : Row) (a : Int → Option String)
    (p : String → Option String) (e : Entry)
    (h : build_transaction row a p = .ok e) :
    (∀ pa, p row.empfaenger_konto = some pa →
      ∃ p1 : Posting,
        e.postings = [p1, ⟨some pa, pdNeg p1.units, p1.currency⟩] ∧
        pdVal (pdNeg p1.units) = -pdVal p1.units) ∧
    (p row.empfaenger_konto = none → ∃ p1 : Posting, e.postings = [p1]) := by
  obtain ⟨date, amt, _, _, he⟩ := build_transaction_ok row a p e h
  subst he
  constructor
  · intro pa hp
    exact ⟨⟨a row.konto_id, amt, "EUR"⟩, by simp [Entry.postings, hp], pdVal_pdNeg amt⟩
  · intro hp
    exact ⟨⟨a row.konto_id, amt, "EUR"⟩, by simp [Entry.postings, hp]⟩

/-- C4 witness: the internal-transfer example row produces the
two-legged transaction with negated second amount. -/
theorem claim_C4_witness :
    ∃ p1 : Posting,
      (Entry.txn
        [("filename", .mstr "<build_transaction>"), ("lineno", .mint 0),
         ("huid", .mstr "101")] ⟨2024, 3, 1⟩ "move"
        [⟨some "Assets:Bank:Checking", ⟨-5000, 2⟩, "EUR"⟩,
         ⟨some "Assets:Bank:Savings", ⟨5000, 2⟩, "EUR"⟩]).postings
        = [p1, ⟨some "Assets:Bank:Savings", pdNeg p1.units, p1.currency⟩] ∧
      pdVal (pdNeg p1.units) = -pdVal p1.units :=
  (claim_C4 exRowTransfer exAccounts exPayees _ rfl).1 "Assets:Bank:Savings" rfl

/-- C9: a built transaction records the source record id as a string
under the metadata key `huid`, while a built balance assertion records
it (raw) under `lineno` with filename `hibiscus` and carries no `huid`
metadata key. -/
theorem claim_C9 (row : Row) (a : Int → Option String)
    (p : String → Option String) (acc : String) (e e2 : Entry)
    (ht : build_transaction row a p = .ok e)
    (hb : build_balance row acc = .ok e2) :
    metaGet e.meta "huid" = some (.mstr (toString row.id)) ∧
    metaGet e2.meta "lineno" = some (.mint row.id) ∧
    metaGet e2.meta "filename" = some (.mstr "hibiscus") ∧
    metaGet e2.meta "huid" = none := by
  obtain ⟨d1, amt, _, _, he⟩ := build_transaction_ok row a p e ht
  obtain ⟨d2, bal, _, _, he2⟩ := build_balance_ok row acc e2 hb
  subst he he2
  exact ⟨rfl, rfl, rfl, rfl⟩

/-- C9 witness: both builders applied to the example balance row. -/
theorem claim_C9_witness :
    metaGet (Entry.meta (Entry.txn
      [("filename", .mstr "<build_transaction>"), ("lineno", .mint 0),
       ("huid", .mstr "2")] ⟨2024, 3, 1⟩ "bal"
      [⟨some "Assets:Bank:Checking", ⟨0, 0⟩, "EUR"⟩])) "huid"
      = some (.mstr (toString exRowBal.id)) ∧
    metaGet (Entry.meta (Entry.balance
      [("lineno", .mint 2), ("filename", .mstr "hibiscus")]
      ⟨2024, 3, 1⟩ "Assets:Bank:Checking" ⟨500, 2⟩ "EUR")) "lineno"
      = some (.mint exRowBal.id) ∧
    metaGet (Entry.meta (Entry.balance
      [("lineno", .mint 2), ("filename", .mstr "hibiscus")]
      ⟨2024, 3, 1⟩ "Assets:Bank:Checking" ⟨500, 2⟩ "EUR")) "filename"
      = some (.mstr "hibiscus") ∧
    metaGet (Entry.meta (Entry.balance
      [("lineno", .mint 2), ("filename", .mstr "hibiscus")]
      ⟨2024, 3, 1⟩ "Assets:Bank:Checking" ⟨500, 2⟩ "EUR")) "huid" = none :=
  claim_C9 exRowBal exAccounts exPayeesNone "Assets:Bank:Checking" _ _ rfl rfl

/-- C1: for a row whose account identifier is mapped, the classifier
produces a balance assertion iff the integer-truncated amount is zero
AND the balance is strictly positive; every other mapped row that
yields an entry yields a (single) transaction. -/
theorem claim_C1 (row : Row) (a : Int → Option String) (p : String → Option String)
    (already : List String) (ignore : Bool) (acc : String) (amtF balF : PyDec)
    (e : Entry)
    (hacc : a row.konto_id = some acc)
    (hamt : pyFloat (fix_regional row.betrag) = some amtF)
    (hbal : pyFloat (fix_regional row.saldo) = some balF)
    (hres : rowResult a p already ignore row = .ok (.entry e)) :
    (e.isBalance = true ↔ (pdTrunc amtF = 0 ∧ pdPos balF = true)) ∧
    (e.isBalance = false → ∃ meta date narr ps, e = .txn meta date narr ps) := by
  by_cases hskip : ignore = true ∧ toString row.id ∈ already
  · simp [rowResult, hskip] at hres
  · simp only [rowResult, if_neg hskip] at hres
    simp only [rowBody, hacc, hamt] at hres
    by_cases hTrunc : pdTrunc amtF = 0
    · simp only [hTrunc, if_pos rfl, hbal] at hres
      by_cases hPos : pdPos balF = true
      · simp only [hPos, if_pos rfl] at hres
        cases hbb : build_balance row acc with
        | error msg => rw [hbb] at hres; simp [Except.map] at hres
        | ok e' =>
          rw [hbb] at hres
          simp [Except.map] at hres
          obtain ⟨d, bal, _, _, he⟩ := build_balance_ok row acc e' hbb
          subst hres; subst he
          constructor
          · simp [Entry.isBalance, hTrunc, hPos]
          · simp [Entry.isBalance]
      · rw [if_neg hPos] at hres
        cases hbt : build_transaction row a p with
        | error msg => rw [hbt] at hres; simp [Except.map] at hres
        | ok e' =>
          rw [hbt] at hres
          simp [Except.map] at hres
          obtain ⟨d, amt, _, _, he⟩ := build_transaction_ok row a p e' hbt
          subst hres; subst he
          constructor
          · simp [Entry.isBalance, hPos]
          · intro _; exact ⟨_, _, _, _, rfl⟩
    · rw [if_neg hTrunc] at hres
      cases hbt : build_transaction row a p with
      | error msg => rw [hbt] at hres; simp [Except.map] at hres
      | ok e' =>
        rw [hbt] at hres
        simp [Except.map] at hres
        obtain ⟨d, amt, _, _, he⟩ := build_transaction_ok row a p e' hbt
        subst hres; subst he
        constructor
        · simp [Entry.isBalance, hTrunc]
        · intro _; exact ⟨_, _, _, _, rfl⟩

/-- C1 witness: the example balance row classifies as a balance
assertion, with truncated amount 0 and positive balance. -/
theorem claim_C1_witness :
    (Entry.isBalance (Entry.balance
      [("lineno", .mint 2), ("filename", .mstr "hibiscus")]
      ⟨2024, 3, 1⟩ "Assets:Bank:Checking" ⟨500, 2⟩ "EUR") = true
      ↔ (pdTrunc ⟨0, 0⟩ = 0 ∧ pdPos ⟨500, 2⟩ = true)) ∧
    (Entry.isBalance (Entry.balance
      [("lineno", .mint 2), ("filename", .mstr "hibiscus")]
      ⟨2024, 3, 1⟩ "Assets:Bank:Checking" ⟨500, 2⟩ "EUR") = false →
      ∃ meta date narr ps, Entry.balance
        [("lineno", .mint 2), ("filename", .mstr "hibiscus")]
        ⟨2024, 3, 1⟩ "Assets:Bank:Checking" ⟨500, 2⟩ "EUR" = .txn meta date narr ps) :=
  claim_C1 exRowBal exAccounts exPayeesNone [] false "Assets:Bank:Checking"
    ⟨0, 0⟩ ⟨500, 2⟩ _ rfl rfl rfl rfl

/-- Splitting the extraction loop over an appended row list: an error
in the first part aborts the whole loop. -/
theorem extractLoop_append (a : Int → Option String) (p : String → Option String)
    (al : List String) (ig : Bool) (st : ExtractState) (l1 l2 : List Row) :
    extractLoop a p al ig st (l1 ++ l2) =
      match extractLoop a p al ig st l1 with
      | .error e => .error e
      | .ok st' => extractLoop a p al ig st' l2 := by
  induction l1 generalizing st with
  | nil => simp [extractLoop]
  | cons r rs ih =>
    simp only [List.cons_append, extractLoop]
    cases h : rowResult a p al ig r with
    | error e => simp
    | ok rr => cases rr <;> simp [ih]

/-- A mapped, unskipped row with a well-formed amount but a date of
length ≠ 10 makes the loop body raise the malformed-date error. -/
theorem rowResult_bad_date (row : Row) (a : Int → Option String)
    (p : String → Option String) (al : List String) (ig : Bool) (acc : String)
    (amtF : PyDec)
    (hskip : ¬(ig = true ∧ toString row.id ∈ al))
    (hacc : a row.konto_id = some acc)
    (hamt : pyFloat (fix_regional row.betrag) = some amtF)
    (hbal : pdTrunc amtF = 0 → ∃ balF, pyFloat (fix_regional row.saldo) = some balF)
    (hlen : row.datum.length ≠ 10) :
    rowResult a p al ig row = .error ("Malformed date: " ++ row.datum) := by
  have hdate : parse_hibiscus_time row.datum = .error ("Malformed date: " ++ row.datum) := by
    simp [parse_hibiscus_time, hlen]
  have hbt : build_transaction row a p = .error ("Malformed date: " ++ row.datum) := by
    simp [build_transaction, hdate]
  simp only [rowResult, if_neg hskip, rowBody, hacc, hamt]
  by_cases hTrunc : pdTrunc amtF = 0
  · obtain ⟨balF, hbalF⟩ := hbal hTrunc
    simp only [hTrunc, if_pos rfl, hbalF]
    by_cases hPos : pdPos balF = true
    · have hbb : build_balance row acc = .error ("Malformed date: " ++ row.datum) := by
        simp [build_balance, hdate]
      simp [hPos, hbb, Except.map]
    · simp [if_neg hPos, hbt, Except.map]
  · simp [if_neg hTrunc, hbt, Except.map]

/-- C7: every date string whose length is not exactly 10 makes
`parse_hibiscus_time` raise `ValueError("Malformed date: ...")`, and
when such a row (mapped, not deduplicated, numeric fields otherwise
well-formed) is reached, the whole extraction run aborts with that
error — no entry is produced and no per-row recovery occurs. -/
theorem claim_C7 :
    (∀ s : String, s.length ≠ 10 →
      parse_hibiscus_time s = .error ("Malformed date: " ++ s)) ∧
    (∀ (rows1 rows2 : List Row) (row : Row) (a : Int → Option String)
      (p : String → Option String) (al : List String) (ig : Bool)
      (stm : ExtractState) (acc : String) (amtF : PyDec),
      extractLoop a p al ig ⟨[], 0, []⟩ rows1 = .ok stm →
      ¬(ig = true ∧ toString row.id ∈ al) →
      a row.konto_id = some acc →
      pyFloat (fix_regional row.betrag) = some amtF →
      (pdTrunc amtF = 0 → ∃ balF, pyFloat (fix_regional row.saldo) = some balF) →
      row.datum.length ≠ 10 →
      extract_transactions (rows1 ++ row :: rows2) a al ig p
        = .error ("Malformed date: " ++ row.datum)) := by
  constructor
  · intro s hs; simp [parse_hibiscus_time, hs]
  · intro rows1 rows2 row a p al ig stm acc amtF hpre hskip hacc hamt hbal hlen
    have hrr := rowResult_bad_date row a p al ig acc amtF hskip hacc hamt hbal hlen
    have hloop : extractLoop a p al ig ⟨[], 0, []⟩ (rows1 ++ row :: rows2)
        = .error ("Malformed date: " ++ row.datum) := by
      rw [extractLoop_append, hpre]
      simp [extractLoop, hrr]
    simp [extract_transactions, hloop]

/-- C7 witness: a 9-character date aborts both the parser and a
concrete one-row run. -/
theorem claim_C7_witness :
    parse_hibiscus_time "2024-3-1" = .error "Malformed date: 2024-3-1" ∧
    extract_transactions [exRowBadDate] exAccounts [] false exPayeesNone
      = .error ("Malformed date: " ++ exRowBadDate.datum) :=
  ⟨claim_C7.1 "2024-3-1" (by decide),
   claim_C7.2 [] [] exRowBadDate exAccounts exPayeesNone [] false ⟨[], 0, []⟩
     "Assets:Bank:Checking" ⟨-5000, 2⟩ rfl (by simp) rfl rfl
     (fun _ => ⟨⟨15000, 2⟩, rfl⟩) (by decide)⟩

/-- Any non-comment record whose key is not digits-only makes the
account-map load fail. -/
theorem get_accounts_loop_error (records : List (String × String × String)) :
    ∀ (am : Int → Option String) (pm : String → Option String),
    (∃ rec ∈ records, isCommentKey rec.1 = false ∧ pyIsDigit rec.1 = false) →
    ∃ msg, get_accounts_loop am pm records = .error msg := by
  induction records with
  | nil => intro am pm h; simp at h
  | cons rec0 rest ih =>
    intro am pm h
    obtain ⟨rec, hmem, hcom, hdig⟩ := h
    obtain ⟨key, value, payee⟩ := rec0
    by_cases hc : isCommentKey key = true
    · simp only [get_accounts_loop, hc, if_true]
      apply ih
      rcases List.mem_cons.mp hmem with heq | hrest
      · rw [heq] at hcom; simp at hcom; exact absurd hc (by simp [hcom])
      · exact ⟨rec, hrest, hcom, hdig⟩
    · have hc' : isCommentKey key = false := by simpa using hc
      by_cases hd : pyIsDigit key = true
      · simp only [get_accounts_loop, hc', hd, Bool.false_eq_true, if_false,
          Bool.not_true, Bool.false_eq_true]
        apply ih
        rcases List.mem_cons.mp hmem with heq | hrest
        · rw [heq] at hdig; simp at hdig; exact absurd hd (by simp [hdig])
        · exact ⟨rec, hrest, hcom, hdig⟩
      · have hd' : pyIsDigit key = false := by simpa using hd
        exact ⟨"Malformed Hibiscus account id: " ++ key,
          by simp [get_accounts_loop, hc', hd']⟩

/-- A binding already present in the accounts map survives the rest of
the load, provided every later record with the same integer key binds
the same value. -/
theorem get_accounts_loop_preserve (records : List (String × String × String)) :
    ∀ (am : Int → Option String) (pm : String → Option String)
      (amF : Int → Option String) (pmF : String → Option String)
      (k : Int) (v : String),
    get_accounts_loop am pm records = .ok (amF, pmF) →
    am k = some v →
    (∀ rec ∈ records, isCommentKey rec.1 = false → pyIsDigit rec.1 = true →
      pyStrToInt rec.1 = k → rec.2.1 = v) →
    amF k = some v := by
  induction records with
  | nil =>
    intro am pm amF pmF k v h hk _
    simp [get_accounts_loop] at h
    rw [← h.1]; exact hk
  | cons rec0 rest ih =>
    intro am pm amF pmF k v h hk hall
    obtain ⟨key, value, payee⟩ := rec0
    by_cases hc : isCommentKey key = true
    · simp only [get_accounts_loop, hc, if_true] at h
      exact ih _ _ _ _ _ _ h hk
        (fun r hr => hall r (List.mem_cons_of_mem _ hr))
    · have hc' : isCommentKey key = false := by simpa using hc
      by_cases hd : pyIsDigit key = true
      · simp only [get_accounts_loop, hc', hd, Bool.false_eq_true, if_false,
          Bool.not_true] at h
        apply ih _ _ _ _ _ _ h _
          (fun r hr => hall r (List.mem_cons_of_mem _ hr))
        by_cases hkey : pyStrToInt key = k
        · have hv : value = v :=
            hall (key, value, payee) (List.mem_cons_self _ _) hc' hd hkey
          simp [hkey, hv]
        · have : ¬(k = pyStrToInt key) := fun hh => hkey hh.symm
          simp [this, hk]
      · have hd' : pyIsDigit key = false := by simpa using hd
        simp [get_accounts_loop, hc', hd'] at h

/-- A non-comment record with a digits-only key ends up bound, as an
integer, to its account name (provided records with equal integer keys
agree on the value). -/
theorem get_accounts_loop_mapped (records : List (String × String × String)) :
    ∀ (am : Int → Option String) (pm : String → Option String)
      (amF : Int → Option String) (pmF : String → Option String)
      (rec : String × String × String),
    get_accounts_loop am pm records = .ok (amF, pmF) →
    rec ∈ records → isCommentKey rec.1 = false → pyIsDigit rec.1 = true →
    (∀ rec' ∈ records, isCommentKey rec'.1 = false → pyIsDigit rec'.1 = true →
      pyStrToInt rec'.1 = pyStrToInt rec.1 → rec'.2.1 = rec.2.1) →
    amF (pyStrToInt rec.1) = some rec.2.1 := by
  induction records with
  | nil => intro am pm amF pmF rec h hmem; simp at hmem
  | cons rec0 rest ih =>
    intro am pm amF pmF rec h hmem hcom hdig hall
    obtain ⟨key, value, payee⟩ := rec0
    rcases List.mem_cons.mp hmem with heq | hrest
    · subst heq
      simp only at hcom hdig
      simp only [get_accounts_loop, hcom, hdig, Bool.false_eq_true, if_false,
        Bool.not_true] at h
      exact get_accounts_loop_preserve rest _ _ _ _ _ _ h (by simp)
        (fun r hr h1 h2 h3 => hall r (List.mem_cons_of_mem _ hr) h1 h2 h3)
    · by_cases hc : isCommentKey key = true
      · simp only [get_accounts_loop, hc, if_true] at h
        exact ih _ _ _ _ _ h hrest hcom hdig
          (fun r hr => hall r (List.mem_cons_of_mem _ hr))
      · have hc' : isCommentKey key = false := by simpa using hc
        by_cases hd : pyIsDigit key = true
        · simp only [get_accounts_loop, hc', hd, Bool.false_eq_true, if_false,
            Bool.not_true] at h
          exact ih _ _ _ _ _ h hrest hcom hdig
            (fun r hr => hall r (List.mem_cons_of_mem _ hr))
        · have hd' : pyIsDigit key = false := by simpa using hd
          simp [get_accounts_loop, hc', hd'] at h



/-- A string containing a non-digit character is not digits-only. -/
theorem pyIsDigit_eq_false_of (s : String) (c : Char) (hc : c ∈ s.data)
    (hcd : c.isDigit = false) : pyIsDigit s = false := by
  have hall : s.data.all Char.isDigit = false := by
    rw [List.all_eq_false]; exact ⟨c, hc, by simp [hcd]⟩
  simp [pyIsDigit, hall]

/-- C8: during account-map load, a non-comment line whose key contains
a non-digit character makes `get_accounts` raise the fatal
malformed-id error; a digits-only key is accepted and mapped, as an
integer, to its internal ledger account name. -/
theorem claim_C8 :
    (∀ records : List (String × String × String),
      (∃ rec ∈ records, isCommentKey rec.1 = false ∧
        ∃ c ∈ rec.1.data, c.isDigit = false) →
      ∃ msg, get_accounts records = .error msg) ∧
    (∀ (records : List (String × String × String)) (am : Int → Option String)
      (pm : String → Option String) (rec : String × String × String),
      get_accounts records = .ok (am, pm) →
      rec ∈ records → isCommentKey rec.1 = false → pyIsDigit rec.1 = true →
      (∀ rec' ∈ records, isCommentKey rec'.1 = false → pyIsDigit rec'.1 = true →
        pyStrToInt rec'.1 = pyStrToInt rec.1 → rec'.2.1 = rec.2.1) →
      am (pyStrToInt rec.1) = some rec.2.1) := by
  constructor
  · intro records h
    obtain ⟨rec, hmem, hcom, c, hcmem, hcd⟩ := h
    exact get_accounts_loop_error records _ _
      ⟨rec, hmem, hcom, pyIsDigit_eq_false_of rec.1 c hcmem hcd⟩
  · intro records am pm rec h hmem hcom hdig hall
    exact get_accounts_loop_mapped records _ _ _ _ rec h hmem hcom hdig hall

/-- C8 witness: a load with a malformed key fails; a digits-only key
`"7"` is mapped to its account name. -/
theorem claim_C8_witness :
    (∃ msg, get_accounts [("7", "Assets:Bank:Checking", ""), ("a7", "X", "")]
      = .error msg) ∧
    (fun k => if k = pyStrToInt "7" then some "Assets:Bank:Checking"
      else (none : Option String)) (pyStrToInt "7")
      = some "Assets:Bank:Checking" :=
  ⟨claim_C8.1 [("7", "Assets:Bank:Checking", ""), ("a7", "X", "")]
    ⟨("a7", "X", ""), by simp, rfl, 'a', by simp, rfl⟩,
   claim_C8.2 [("7", "Assets:Bank:Checking", "")]
     (fun k => if k = pyStrToInt "7" then some "Assets:Bank:Checking" else none)
     (fun _ => none) ("7", "Assets:Bank:Checking", "") rfl (by simp) rfl rfl
     (by intro rec' h1 h2 h3 h4; simp at h1; rw [h1])⟩

/-- Membership in the newly-processed set after an insertion. -/
theorem mem_setInsert (l : List Int) (a i : Int) :
    i ∈ setInsert l a ↔ i ∈ l ∨ i = a := by
  unfold setInsert
  split
  · rename_i hmem
    constructor
    · exact Or.inl
    · rintro (h | rfl)
      · exact h
      · exact hmem
  · simp

/-- The loop body past the dedup check never reports a row as skipped. -/
theorem rowBody_ne_skip (a : Int → Option String) (p : String → Option String)
    (row : Row) : rowBody a p row ≠ .ok .skippedAlready := by
  intro h
  cases hacc : a row.konto_id with
  | none => simp [rowBody, hacc] at h
  | some acc =>
    cases hf : pyFloat (fix_regional row.betrag) with
    | none => simp [rowBody, hacc, hf] at h
    | some a0 =>
      by_cases ht : pdTrunc a0 = 0
      · cases hb : pyFloat (fix_regional row.saldo) with
        | none => simp [rowBody, hacc, hf, ht, hb] at h
        | some b0 =>
          by_cases hp : pdPos b0 = true
          · cases hbb : build_balance row acc with
            | error msg => simp [rowBody, hacc, hf, ht, hb, hp, hbb, Except.map] at h
            | ok e0 => simp [rowBody, hacc, hf, ht, hb, hp, hbb, Except.map] at h
          · cases hbt : build_transaction row a p with
            | error msg => simp [rowBody, hacc, hf, ht, hb, hp, hbt, Except.map] at h
            | ok e0 => simp [rowBody, hacc, hf, ht, hb, hp, hbt, Except.map] at h
      · cases hbt : build_transaction row a p with
        | error msg => simp [rowBody, hacc, hf, ht, hbt, Except.map] at h
        | ok e0 => simp [rowBody, hacc, hf, ht, hbt, Except.map] at h

/-- The newly-processed set only grows along the extraction loop. -/
theorem extractLoop_newly_mono (a : Int → Option String)
    (p : String → Option String) (al : List String) (ig : Bool) :
    ∀ (rows : List Row) (st stF : ExtractState),
    extractLoop a p al ig st rows = .ok stF →
    ∀ i ∈ st.newly_processed_huids, i ∈ stF.newly_processed_huids := by
  intro rows
  induction rows with
  | nil =>
    intro st stF h i hi
    simp [extractLoop] at h
    rw [← h]; exact hi
  | cons r rs ih =>
    intro st stF h i hi
    simp only [extractLoop] at h
    cases hr : rowResult a p al ig r with
    | error e => rw [hr] at h; simp at h
    | ok rr =>
      rw [hr] at h
      cases rr with
      | skippedAlready => exact ih _ _ h i hi
      | unmapped => exact ih _ _ h i hi
      | entry e0 =>
        exact ih _ _ h i ((mem_setInsert _ _ _).mpr (Or.inl hi))

/-- Characterization of the newly-processed set: exactly the starting
set plus the ids of rows whose loop body produced an entry. -/
theorem extractLoop_newly_iff (a : Int → Option String)
    (p : String → Option String) (al : List String) (ig : Bool) :
    ∀ (rows : List Row) (st stF : ExtractState),
    extractLoop a p al ig st rows = .ok stF →
    ∀ i : Int, i ∈ stF.newly_processed_huids ↔
      i ∈ st.newly_processed_huids ∨
      ∃ row ∈ rows, row.id = i ∧
        ∃ e, rowResult a p al ig row = .ok (.entry e) := by
  intro rows
  induction rows with
  | nil =>
    intro st stF h i
    simp [extractLoop] at h
    rw [← h]; simp
  | cons r rs ih =>
    intro st stF h i
    simp only [extractLoop] at h
    cases hr : rowResult a p al ig r with
    | error e => rw [hr] at h; simp at h
    | ok rr =>
      rw [hr] at h
      cases rr with
      | skippedAlready =>
        have hne : ¬ ∃ e, rowResult a p al ig r = .ok (.entry e) := by
          rw [hr]; rintro ⟨e, he⟩; simp at he
        rw [ih _ _ h i]
        constructor
        · rintro (hst | ⟨row, hrow, hid, e, he⟩)
          · exact Or.inl hst
          · exact Or.inr ⟨row, List.mem_cons_of_mem _ hrow, hid, e, he⟩
        · rintro (hst | ⟨row, hrow, hid, e, he⟩)
          · exact Or.inl hst
          · rcases List.mem_cons.mp hrow with rfl | hrow'
            · exact absurd ⟨e, he⟩ hne
            · exact Or.inr ⟨row, hrow', hid, e, he⟩
      | unmapped =>
        have hne : ¬ ∃ e, rowResult a p al ig r = .ok (.entry e) := by
          rw [hr]; rintro ⟨e, he⟩; simp at he
        rw [ih _ _ h i]
        constructor
        · rintro (hst | ⟨row, hrow, hid, e, he⟩)
          · exact Or.inl hst
          · exact Or.inr ⟨row, List.mem_cons_of_mem _ hrow, hid, e, he⟩
        · rintro (hst | ⟨row, hrow, hid, e, he⟩)
          · exact Or.inl hst
          · rcases List.mem_cons.mp hrow with rfl | hrow'
            · exact absurd ⟨e, he⟩ hne
            · exact Or.inr ⟨row, hrow', hid, e, he⟩
      | entry e0 =>
        rw [ih _ _ h i]
        constructor
        · rintro (hst' | ⟨row, hrow, hid, e, he⟩)
          · rcases (mem_setInsert _ _ _).mp hst' with hst | rfl
            · exact Or.inl hst
            · exact Or.inr ⟨r, List.mem_cons_self _ _, rfl, e0, hr⟩
          · exact Or.inr ⟨row, List.mem_cons_of_mem _ hrow, hid, e, he⟩
        · rintro (hst | ⟨row, hrow, hid, e, he⟩)
          · exact Or.inl ((mem_setInsert _ _ _).mpr (Or.inl hst))
          · rcases List.mem_cons.mp hrow with rfl | hrow'
            · exact Or.inl ((mem_setInsert _ _ _).mpr (Or.inr hid.symm))
            · exact Or.inr ⟨row, hrow', hid, e, he⟩



/-- C10: with deduplication enabled, the set of ids recorded for
appending to the processed-id store is exactly the set of ids of rows
that produced a ledger entry in this run; ids of unmapped-account rows
and of already-processed rows are not recorded. -/
theorem claim_C10 (rows : List Row) (a : Int → Option String)
    (p : String → Option String) (al : List String) (es : List Entry)
    (newly : List Int)
    (h : extract_transactions rows a al true p = .ok (es, newly)) :
    (∀ i : Int, i ∈ newly ↔ ∃ row ∈ rows, row.id = i ∧
      ∃ e, rowResult a p al true row = .ok (.entry e)) ∧
    write_processed_huids al newly = al ++ newly.map toString := by
  unfold extract_transactions at h
  cases hl : extractLoop a p al true ⟨[], 0, []⟩ rows with
  | error e => rw [hl] at h; simp at h
  | ok st =>
    rw [hl] at h
    simp at h
    obtain ⟨hes, hnewly⟩ := h
    constructor
    · intro i
      rw [← hnewly, extractLoop_newly_iff a p al true rows _ _ hl i]
      simp
    · rfl

/-- C10 witness: of an entry-producing row (id 100), an unmapped row
(id 55) and an already-processed row (id 50), only 100 is recorded. -/
theorem claim_C10_witness :
    ((100 : Int) ∈ [(100 : Int)] ↔
      ∃ row ∈ [exRowTxn, exRowUnmapped, exRowDup], row.id = 100 ∧
        ∃ e, rowResult exAccounts exPayeesNone ["50"] true row
          = .ok (.entry e)) ∧
    write_processed_huids ["50"] [100] = ["50"] ++ [(100 : Int)].map toString :=
  have h := claim_C10 [exRowTxn, exRowUnmapped, exRowDup] exAccounts
    exPayeesNone ["50"] _ [100] rfl
  ⟨h.1 100, h.2⟩



/-- Re-running the loop after appending the first run's newly
processed ids to the store skips or drops every row: no entries, no
new ids. -/
theorem extractLoop_second_run (a : Int → Option String)
    (p : String → Option String) (store : List String) :
    ∀ (rows : List Row) (st1 stF : ExtractState) (sk : Nat),
    extractLoop a p store true st1 rows = .ok stF →
    ∃ sk2, extractLoop a p
      (store ++ stF.newly_processed_huids.map toString) true
      ⟨[], sk, []⟩ rows = .ok ⟨[], sk2, []⟩ := by
  intro rows
  induction rows with
  | nil => intro st1 stF sk h; exact ⟨sk, rfl⟩
  | cons r rs ih =>
    intro st1 stF sk h
    simp only [extractLoop] at h
    cases hr : rowResult a p store true r with
    | error e => rw [hr] at h; simp at h
    | ok rr =>
      rw [hr] at h
      cases rr with
      | skippedAlready =>
        have hmem : toString r.id ∈ store := by
          by_contra hnm
          have hns : ¬(true = true ∧ toString r.id ∈ store) := by simp [hnm]
          rw [rowResult, if_neg hns] at hr
          exact rowBody_ne_skip a p r hr
        have hr2 : rowResult a p
            (store ++ stF.newly_processed_huids.map toString) true r
            = .ok .skippedAlready := by
          rw [rowResult, if_pos ⟨rfl, List.mem_append_left _ hmem⟩]
        simp only [extractLoop, hr2]
        exact ih _ _ _ h
      | unmapped =>
        by_cases hmem2 : toString r.id ∈
            store ++ stF.newly_processed_huids.map toString
        · have hr2 : rowResult a p
              (store ++ stF.newly_processed_huids.map toString) true r
              = .ok .skippedAlready := by
            rw [rowResult, if_pos ⟨rfl, hmem2⟩]
          simp only [extractLoop, hr2]
          exact ih _ _ _ h
        · have hns1 : ¬(true = true ∧ toString r.id ∈ store) := by
            rintro ⟨-, hm⟩; exact hmem2 (List.mem_append_left _ hm)
          have hbody : rowBody a p r = .ok .unmapped := by
            rw [rowResult, if_neg hns1] at hr; exact hr
          have hr2 : rowResult a p
              (store ++ stF.newly_processed_huids.map toString) true r
              = .ok .unmapped := by
            rw [rowResult, if_neg (by rintro ⟨-, hm⟩; exact hmem2 hm)]
            exact hbody
          simp only [extractLoop, hr2]
          exact ih _ _ _ h
      | entry e0 =>
        have hid : r.id ∈ stF.newly_processed_huids := by
          apply extractLoop_newly_mono a p store true rs _ _ h
          exact (mem_setInsert _ _ _).mpr (Or.inr rfl)
        have hr2 : rowResult a p
            (store ++ stF.newly_processed_huids.map toString) true r
            = .ok .skippedAlready := by
          rw [rowResult, if_pos ⟨rfl,
            List.mem_append_right _ (List.mem_map_of_mem _ hid)⟩]
        simp only [extractLoop, hr2]
        exact ih _ _ _ h

/-- C5: running the pipeline twice on the same rows with
`ignore_already_processed = true` and no data change produces zero
entries on the second run and leaves the processed-id store unchanged
(no lines appended). -/
theorem claim_C5 (rows : List Row) (a : Int → Option String)
    (p : String → Option String) (store : List String) (es1 : List Entry)
    (store1 : List String)
    (h : run_once rows a p store true = .ok (es1, store1)) :
    run_once rows a p store1 true = .ok ([], store1) := by
  unfold run_once at h ⊢
  cases h1 : extract_transactions rows a store true p with
  | error e => rw [h1] at h; simp at h
  | ok pr =>
    rw [h1] at h
    obtain ⟨es, newly⟩ := pr
    simp at h
    obtain ⟨hes, hstore⟩ := h
    unfold extract_transactions at h1
    cases hl : extractLoop a p store true ⟨[], 0, []⟩ rows with
    | error e => rw [hl] at h1; simp at h1
    | ok st =>
      rw [hl] at h1
      simp at h1
      obtain ⟨hes1, hnewly⟩ := h1
      obtain ⟨sk2, h2⟩ := extractLoop_second_run a p store rows ⟨[], 0, []⟩ st 0 hl
      have hstore1 : store1 = store ++ st.newly_processed_huids.map toString := by
        rw [← hstore, ← hnewly]; rfl
      have hx2 : extract_transactions rows a store1 true p = .ok ([], []) := by
        unfold extract_transactions
        rw [hstore1, h2]
        rfl
      rw [hx2]
      simp [write_processed_huids]

/-- C5 witness: a concrete second run returns no entries and the
unchanged store. -/
theorem claim_C5_witness :
    run_once [exRowTxn, exRowUnmapped, exRowDup] exAccounts exPayeesNone
      ["50", "100"] true = .ok ([], ["50", "100"]) :=
  claim_C5 [exRowTxn, exRowUnmapped, exRowDup] exAccounts exPayeesNone
    ["50"] _ _ rfl

/-- The lexicographic order on integer lists is total. -/
theorem listLexLe_total : ∀ x y : List Int,
    listLexLe x y = true ∨ listLexLe y x = true := by
  intro x
  induction x with
  | nil => intro y; exact Or.inl rfl
  | cons a as ih =>
    intro y
    cases y with
    | nil => exact Or.inr rfl
    | cons b bs =>
      by_cases hab : a < b
      · left; simp [listLexLe, hab]
      · by_cases hba : b < a
        · right; simp [listLexLe, hba]
        · have heq : a = b := le_antisymm (not_lt.mp hba) (not_lt.mp hab)
          subst heq
          rcases ih bs with h | h
          · left; simp [listLexLe, h]
          · right; simp [listLexLe, h]

/-- The lexicographic order on integer lists is transitive. -/
theorem listLexLe_trans : ∀ x y z : List Int,
    listLexLe x y = true → listLexLe y z = true → listLexLe x z = true := by
  intro x
  induction x with
  | nil => intro y z _ _; rfl
  | cons a as ih =>
    intro y z hxy hyz
    cases y with
    | nil => simp [listLexLe] at hxy
    | cons b bs =>
      cases z with
      | nil => simp [listLexLe] at hyz
      | cons c cs =>
        by_cases hab : a < b
        · by_cases hbc : b < c
          · simp [listLexLe, lt_trans hab hbc]
          · by_cases hbc2 : b = c
            · subst hbc2; simp [listLexLe, hab]
            · simp [listLexLe, hbc, hbc2] at hyz
        · by_cases hab2 : a = b
          · subst hab2
            simp only [listLexLe, if_neg hab, if_pos rfl] at hxy
            by_cases hac : a < c
            · simp [listLexLe, hac]
            · by_cases hac2 : a = c
              · subst hac2
                simp only [listLexLe, if_neg hac, if_pos rfl] at hyz ⊢
                exact ih bs cs hxy hyz
              · simp [listLexLe, hac, hac2] at hyz
          · simp [listLexLe, hab, hab2] at hxy

/-- The entry sort-key order is total. -/
theorem entryKeyLe_total (x y : Entry) :
    entryKeyLe x y = true ∨ entryKeyLe y x = true :=
  listLexLe_total _ _

/-- The entry sort-key order is transitive. -/
theorem entryKeyLe_trans (x y z : Entry) (h1 : entryKeyLe x y = true)
    (h2 : entryKeyLe y z = true) : entryKeyLe x z = true :=
  listLexLe_trans _ _ _ h1 h2

/-- Elements of a stable insertion are the inserted entry or old ones. -/
theorem mem_insertStable (e : Entry) : ∀ (l : List Entry) (y : Entry),
    y ∈ insertStable e l → y = e ∨ y ∈ l := by
  intro l
  induction l with
  | nil => intro y hy; simp [insertStable] at hy; exact Or.inl hy
  | cons x xs ih =>
    intro y hy
    unfold insertStable at hy
    by_cases hc : (entryKeyLe x e && !entryKeyLe e x) = true
    · rw [if_pos hc] at hy
      rcases List.mem_cons.mp hy with rfl | hy'
      · exact Or.inr (List.mem_cons_self _ _)
      · rcases ih y hy' with h | h
        · exact Or.inl h
        · exact Or.inr (List.mem_cons_of_mem _ h)
    · rw [if_neg hc] at hy
      rcases List.mem_cons.mp hy with rfl | hy'
      · exact Or.inl rfl
      · exact Or.inr hy'

/-- Stable insertion preserves sortedness by the entry key. -/
theorem pairwise_insertStable (e : Entry) : ∀ l : List Entry,
    l.Pairwise (fun x y => entryKeyLe x y = true) →
    (insertStable e l).Pairwise (fun x y => entryKeyLe x y = true) := by
  intro l
  induction l with
  | nil => intro _; simp [insertStable]
  | cons x xs ih =>
    intro h
    rw [List.pairwise_cons] at h
    obtain ⟨hx, hxs⟩ := h
    unfold insertStable
    by_cases hc : (entryKeyLe x e && !entryKeyLe e x) = true
    · rw [if_pos hc]
      rw [List.pairwise_cons]
      constructor
      · intro y hy
        rcases mem_insertStable e xs y hy with rfl | hyxs
        · cases hxe : entryKeyLe x y
          · rw [hxe] at hc; simp at hc
          · rfl
        · exact hx y hyxs
      · exact ih hxs
    · rw [if_neg hc]
      have hex : entryKeyLe e x = true := by
        cases hexb : entryKeyLe e x
        · cases hxeb : entryKeyLe x e
          · rcases entryKeyLe_total e x with h | h
            · rw [hexb] at h; exact h
            · rw [hxeb] at h; exact absurd h (by simp)
          · exact absurd (by simp [hxeb, hexb]) hc
        · rfl
      rw [List.pairwise_cons]
      constructor
      · intro y hy
        rcases List.mem_cons.mp hy with rfl | hyxs
        · exact hex
        · exact entryKeyLe_trans _ _ _ hex (hx y hyxs)
      · exact List.pairwise_cons.mpr ⟨hx, hxs⟩

/-- The result of `data_sorted` is sorted by the beancount sort key. -/
theorem data_sorted_pairwise : ∀ l : List Entry,
    (data_sorted l).Pairwise (fun x y => entryKeyLe x y = true) := by
  intro l
  induction l with
  | nil => simp [data_sorted]
  | cons x xs ih => exact pairwise_insertStable x _ ih

/-- Stable insertion is a permutation of consing. -/
theorem insertStable_perm (e : Entry) : ∀ l : List Entry,
    (insertStable e l).Perm (e :: l) := by
  intro l
  induction l with
  | nil => exact List.Perm.refl _
  | cons x xs ih =>
    unfold insertStable
    by_cases hc : (entryKeyLe x e && !entryKeyLe e x) = true
    · rw [if_pos hc]
      exact (ih.cons x).trans (List.Perm.swap e x xs)
    · rw [if_neg hc]

/-- `data_sorted` permutes its input. -/
theorem data_sorted_perm : ∀ l : List Entry, (data_sorted l).Perm l := by
  intro l
  induction l with
  | nil => exact List.Perm.refl _
  | cons x xs ih =>
    exact (insertStable_perm x (data_sorted xs)).trans (ih.cons x)

/-- A lexicographic comparison restricts to equal-length prefixes. -/
theorem listLexLe_append (k1 : List Int) : ∀ (k2 r1 r2 : List Int),
    k1.length = k2.length → listLexLe (k1 ++ r1) (k2 ++ r2) = true →
    listLexLe k1 k2 = true := by
  induction k1 with
  | nil => intro k2 r1 r2 _ _; rfl
  | cons a as ih =>
    intro k2 r1 r2 hlen h
    cases k2 with
    | nil => simp at hlen
    | cons b bs =>
      simp only [List.cons_append, listLexLe] at h ⊢
      by_cases hab : a < b
      · simp [hab]
      · by_cases hab2 : a = b
        · simp only [if_neg hab, if_pos hab2] at h ⊢
          exact ih bs r1 r2 (by simpa using hlen) h
        · simp [hab, hab2] at h

/-- Sort-key order implies date order (the date components are the
leading prefix of the key). -/
theorem dateKey_le_of_entryKeyLe (x y : Entry) (h : entryKeyLe x y = true) :
    listLexLe (hdateKey x.date) (hdateKey y.date) = true := by
  have h' : listLexLe (hdateKey x.date ++ [sortOrderRank x, metaLineno x])
      (hdateKey y.date ++ [sortOrderRank y, metaLineno y]) = true := h
  exact listLexLe_append _ _ _ _ rfl h'



/-- C6 counterexample: two same-date rows — a transaction row (id 100)
followed by a balance row (id 2) — come out reordered: the balance
assertion (meta lineno 2, from the SECOND input row) precedes the
transaction (meta huid \"100\", from the FIRST input row), so same-date
entries do not keep their rows' relative input order. -/
theorem claim_C6_counterexample :
    extract_transactions [exRowTxn, exRowBal] exAccounts [] false exPayeesNone
      = .ok ([Entry.balance
          [("lineno", .mint 2), ("filename", .mstr "hibiscus")]
          ⟨2024, 3, 1⟩ "Assets:Bank:Checking" ⟨500, 2⟩ "EUR",
        Entry.txn
          [("filename", .mstr "<build_transaction>"), ("lineno", .mint 0),
           ("huid", .mstr "100")]
          ⟨2024, 3, 1⟩ "Coffee"
          [⟨some "Assets:Bank:Checking", ⟨-5000, 2⟩, "EUR"⟩]], [100, 2]) ∧
    exRowTxn.datum = exRowBal.datum ∧
    metaGet [("lineno", MetaVal.mint 2), ("filename", .mstr "hibiscus")] "lineno"
      = some (.mint exRowBal.id) ∧
    metaGet [("filename", MetaVal.mstr "<build_transaction>"),
      ("lineno", .mint 0), ("huid", .mstr "100")] "huid"
      = some (.mstr (toString exRowTxn.id)) :=
  ⟨rfl, rfl, rfl, rfl⟩

/-- C6 (amended): the returned entry list is sorted ascending by
beancount's entry sort key — date first, then entry type (balance
assertions before transactions), then the lineno metadata (the source
id for balances, 0 for transactions) — in particular it is sorted by
date ascending, and it is a permutation of the built entries; same-date
entries are ordered by that key rather than by input position. -/
theorem claim_C6_amended (rows : List Row) (a : Int → Option String)
    (al : List String) (ig : Bool) (p : String → Option String)
    (es : List Entry) (newly : List Int)
    (h : extract_transactions rows a al ig p = .ok (es, newly)) :
    es.Pairwise (fun x y => entryKeyLe x y = true) ∧
    es.Pairwise (fun x y =>
      listLexLe (hdateKey x.date) (hdateKey y.date) = true) ∧
    ∃ st : ExtractState,
      extractLoop a p al ig ⟨[], 0, []⟩ rows = .ok st ∧
      es.Perm st.new_entries := by
  unfold extract_transactions at h
  cases hl : extractLoop a p al ig ⟨[], 0, []⟩ rows with
  | error e => rw [hl] at h; simp at h
  | ok st =>
    rw [hl] at h
    simp at h
    obtain ⟨hes, hnewly⟩ := h
    subst hes
    exact ⟨data_sorted_pairwise _,
      (data_sorted_pairwise _).imp (fun hxy => dateKey_le_of_entryKeyLe _ _ hxy),
      st, rfl, data_sorted_perm _⟩

/-- C6 amended-claim witness: the two-row example run is sorted by the
key and permutes the built entries. -/
theorem claim_C6_amended_witness :
    ([Entry.balance [("lineno", .mint 2), ("filename", .mstr "hibiscus")]
        ⟨2024, 3, 1⟩ "Assets:Bank:Checking" ⟨500, 2⟩ "EUR",
      Entry.txn [("filename", .mstr "<build_transaction>"), ("lineno", .mint 0),
        ("huid", .mstr "100")] ⟨2024, 3, 1⟩ "Coffee"
        [⟨some "Assets:Bank:Checking", ⟨-5000, 2⟩, "EUR"⟩]] : List Entry).Pairwise
      (fun x y => entryKeyLe x y = true) ∧
    ([Entry.balance [("lineno", .mint 2), ("filename", .mstr "hibiscus")]
        ⟨2024, 3, 1⟩ "Assets:Bank:Checking" ⟨500, 2⟩ "EUR",
      Entry.txn [("filename", .mstr "<build_transaction>"), ("lineno", .mint 0),
        ("huid", .mstr "100")] ⟨2024, 3, 1⟩ "Coffee"
        [⟨some "Assets:Bank:Checking", ⟨-5000, 2⟩, "EUR"⟩]] : List Entry).Pairwise
      (fun x y => listLexLe (hdateKey x.date) (hdateKey y.date) = true) ∧
    ∃ st : ExtractState,
      extractLoop exAccounts exPayeesNone [] false ⟨[], 0, []⟩
        [exRowTxn, exRowBal] = .ok st ∧
      ([Entry.balance [("lineno", .mint 2), ("filename", .mstr "hibiscus")]
          ⟨2024, 3, 1⟩ "Assets:Bank:Checking" ⟨500, 2⟩ "EUR",
        Entry.txn [("filename", .mstr "<build_transaction>"), ("lineno", .mint 0),
          ("huid", .mstr "100")] ⟨2024, 3, 1⟩ "Coffee"
          [⟨some "Assets:Bank:Checking", ⟨-5000, 2⟩, "EUR"⟩]] : List Entry).Perm
        st.new_entries :=
  claim_C6_amended [exRowTxn, exRowBal] exAccounts [] false exPayeesNone _ _ rfl

end Hibiscus
